import Mathlib

/-!
Shallow embedding of the `backup_md5` archival engine.

The program archives selected files from a source tree into a
content-addressed store (`files_by_md5/<first-2-hex>/<full-hex>`), and writes
one pointer record per processed file into a timestamped snapshot directory
mirroring the source layout.

Modelling conventions:
* A filesystem path is a list of components (`FsPath`); an absolute POSIX path
  is modelled with a leading `""` component so that rendering with `/`
  separators yields a string starting with `/`.
* The filesystem is a pair of a directory list and an association list from
  file paths to string contents (`FS`).  `std::fs` operations that the claims
  do not condition on (directory creation, file creation) are modelled as
  total; fallible reads/copies consult the association list.
* `fs::canonicalize` depends on the ambient filesystem (cwd, symlinks); it is
  modelled by an uninterpreted resolution function `canon` applied when the
  argument path exists, mirroring that `canonicalize` fails on a missing path
  (`handle_md5_copy` then falls back to the unresolved path).
* The MD5 digest itself is an uninterpreted function `md5fn` producing the
  16 raw digest bytes; `format!("{:x}", digest)` is modelled faithfully by
  `formatHexDigest` (two lowercase hex digits per byte).
* Rust `Result` values are `Except Err`; functions whose Rust counterparts
  mutate the filesystem before failing return the mutated state alongside the
  `Except`, so partial effects survive an error exactly as on a real disk.
* The byte slice `&md5_hex[..2]` (which panics when out of bounds or off a
  char boundary) is modelled by `sliceBytesTo`, which consumes UTF-8 byte
  budgets, and a distinguished `Err.slicePanic` outcome.
-/

/-- A filesystem path as a list of components. -/
abbrev FsPath := List String

/-- Rendering of a path as done by `Path::join`/`to_string_lossy`:
components separated by `/`. -/
def renderPath (p : FsPath) : String :=
  String.intercalate "/" p

/-- `under b p` holds when `b` is a component-wise prefix of `p` — the model of
Rust's `Path::starts_with`, used to say a path is rooted under a base. -/
def under : FsPath → FsPath → Bool
  | [], _ => true
  | _ :: _, [] => false
  | a :: as, b :: bs => decide (a = b) && under as bs

/-- Component-wise `Path::strip_prefix`: the remainder of `p` after `base`,
or `none` when `p` is not rooted under `base`. -/
def stripRel : FsPath → FsPath → Option FsPath
  | [], p => some p
  | _ :: _, [] => none
  | a :: as, b :: bs => if a = b then stripRel as bs else none

/-- All nonempty prefixes of a path: the set of directories that
`fs::create_dir_all` guarantees to exist afterwards. -/
def initsOf : FsPath → List FsPath
  | [] => []
  | a :: as => [a] :: (initsOf as).map (fun q => a :: q)

/-- Model filesystem state: a list of existing directories and an association
list from file paths to file contents. -/
structure FS where
  dirs : List FsPath
  files : List (FsPath × String)
deriving Repr, DecidableEq

/-- Content of the file at `p`, if a file exists there (first match, as later
entries are shadowed by overwrites that cons to the front). -/
def lookupFile (fs : FS) (p : FsPath) : Option String :=
  (fs.files.find? (fun pc => decide (pc.1 = p))).map (fun pc => pc.2)

/-- Whether a file exists at `p`. -/
def fileExists (fs : FS) (p : FsPath) : Bool :=
  fs.files.any (fun pc => decide (pc.1 = p))

/-- Whether a directory exists at `p`. -/
def dirExists (fs : FS) (p : FsPath) : Bool :=
  fs.dirs.any (fun q => decide (q = p))

/-- Rust `Path::exists`: a directory or a file is present at `p`. -/
def pathExists (fs : FS) (p : FsPath) : Bool :=
  dirExists fs p || fileExists fs p

/-- `fs::create_dir_all`: afterwards every nonempty prefix of `p` is a
directory.  Modelled as total (the claims condition on its success). -/
def createDirAll (fs : FS) (p : FsPath) : FS :=
  { fs with dirs := initsOf p ++ fs.dirs }

/-- `fs::canonicalize(p).unwrap_or(p)`: resolve `p` through the ambient
resolution function when `p` exists, otherwise fall back to `p` itself
(canonicalize fails on a missing path). -/
def canonOr (canon : FsPath → FsPath) (fs : FS) (p : FsPath) : FsPath :=
  if pathExists fs p then canon p else p

/-- Number of physical files stored at `p` (for the at-most-one-copy
invariant of the content store). -/
def copyCount (fs : FS) (p : FsPath) : Nat :=
  fs.files.countP (fun pc => decide (pc.1 = p))

/-- Error kinds of the program (`anyhow` errors collapsed to their cause).
`slicePanic` is the distinguished outcome modelling the Rust panic on an
out-of-bounds byte slice of the fingerprint. -/
inductive Err where
  | ioRead
  | ioCopy
  | pathError
  | slicePanic
deriving Repr, DecidableEq

/-- Display text of an error, used in the per-file diagnostic message. -/
def errText : Err → String
  | Err.ioRead => "Failed to read file"
  | Err.ioCopy => "Failed to copy"
  | Err.pathError => "Failed to get relative path"
  | Err.slicePanic => "byte index out of bounds"

/-- One lowercase hexadecimal digit, as produced by Rust's `LowerHex`. -/
def hexDigit : Nat → Char
  | 0 => '0' | 1 => '1' | 2 => '2' | 3 => '3' | 4 => '4'
  | 5 => '5' | 6 => '6' | 7 => '7' | 8 => '8' | 9 => '9'
  | 10 => 'a' | 11 => 'b' | 12 => 'c' | 13 => 'd' | 14 => 'e'
  | _ => 'f'

/-- Two lowercase hex digits of one digest byte (`{:02x}`). -/
def byteHex (b : Nat) : List Char :=
  [hexDigit (b / 16 % 16), hexDigit (b % 16)]

/-- Hex rendering of a digest byte list. -/
def bytesHex : List Nat → List Char
  | [] => []
  | b :: bs => byteHex b ++ bytesHex bs

/-- `format!("{:x}", digest)`: the digest bytes rendered as lowercase hex,
two characters per byte. -/
def formatHexDigest (d : List Nat) : String :=
  String.mk (bytesHex d)

/-- `calculate_md5` (src/hash.rs): read the file's full contents and format
the digest of those bytes as lowercase hex.  The digest function itself is
the uninterpreted parameter `md5fn` returning the 16 raw digest bytes. -/
def calculate_md5 (md5fn : String → List Nat) (fs : FS) (path : FsPath) :
    Except Err String :=
  match lookupFile fs path with
  | none => Except.error Err.ioRead
  | some content => Except.ok (formatHexDigest (md5fn content))

/-- The characters making up the first `k` UTF-8 bytes of a character list,
or `none` when `k` overruns the string or falls inside a character — the
model of Rust's byte slicing `&s[..k]`, whose failure is a panic. -/
def sliceBytesTo : List Char → Nat → Option (List Char)
  | _, 0 => some []
  | [], _ + 1 => none
  | c :: cs, k + 1 =>
    if c.utf8Size ≤ k + 1 then
      (sliceBytesTo cs (k + 1 - c.utf8Size)).map (fun l => c :: l)
    else none

/-- `handle_md5_copy` (src/directory.rs): shard directory from the first two
characters of the fingerprint, idempotent shard creation, canonicalized
target path with fallback, dedup short-circuit, copy only when absent.
Returns the (possibly mutated) filesystem and the `Result`. -/
def handle_md5_copy (canon : FsPath → FsPath) (fs : FS)
    (source_path md5_dir : FsPath) (md5_hex : String) :
    FS × Except Err String :=
  match sliceBytesTo md5_hex.data 2 with
  | none => (fs, Except.error Err.slicePanic)
  | some pre =>
    let sub_dir := md5_dir ++ [String.mk pre]
    let fs1 := createDirAll fs sub_dir
    let md5_target := sub_dir ++ [md5_hex]
    let full_md5_path := renderPath (canonOr canon fs1 md5_target)
    if pathExists fs1 md5_target then
      (fs1, Except.ok full_md5_path)
    else
      match lookupFile fs1 source_path with
      | none => (fs1, Except.error Err.ioCopy)
      | some content =>
        ({ fs1 with files := (md5_target, content) :: fs1.files },
         Except.ok full_md5_path)

/-- `create_timestamp_record` (src/directory.rs): relative path of the source
under the base (failing with a path error otherwise), parent directory
creation, and the pointer file written with exactly `full_md5_path` as
content (`File::create` overwrites, modelled by consing, which shadows). -/
def create_timestamp_record (fs : FS)
    (source_path source_base timestamp_dir : FsPath)
    (full_md5_path : String) : FS × Except Err Unit :=
  match stripRel source_base source_path with
  | none => (fs, Except.error Err.pathError)
  | some rel =>
    let record_path := timestamp_dir ++ rel
    let fs1 := createDirAll fs record_path.dropLast
    ({ fs1 with files := (record_path, full_md5_path) :: fs1.files },
     Except.ok ())

/-- The last character list split at its final `.`: `some (before, after)`
when a dot occurs. -/
def lastDotSplit : List Char → Option (List Char × List Char)
  | [] => none
  | c :: rest =>
    match lastDotSplit rest with
    | some (b, a) => some (c :: b, a)
    | none => if c = '.' then some ([], rest) else none

/-- Rust `Path::extension` on a file name: the portion after the final `.`,
except that a name whose only `.` is the leading one (a dotfile such as
`.hidden`) has no extension. -/
def rustExtension (name : String) : Option String :=
  match lastDotSplit name.data with
  | none => none
  | some ([], _) => none
  | some (_ :: _, a) => some (String.mk a)

/-- ASCII lowercasing of a string (`str::to_lowercase` restricted to the
ASCII extensions this program compares). -/
def lowerAscii (s : String) : String :=
  String.mk (s.data.map Char.toLower)

/-- `has_extension` (src/directory.rs): the path's extension, lowercased,
is a member of the accepted set. -/
def has_extension (p : FsPath) (exts : List String) : Bool :=
  match p.getLast? with
  | none => false
  | some name =>
    match rustExtension name with
    | none => false
    | some e => exts.contains (lowerAscii e)

/-- `str::starts_with('.')`: whether the first character is a period
(modelled on the character list so that it evaluates in the kernel). -/
def startsDot (s : String) : Bool :=
  match s.data with
  | [] => false
  | c :: _ => decide (c = '.')

/-- `is_hidden` (src/file_processor.rs): the entry's own file name starts
with `.`, or any normal component of its full path does. -/
def is_hidden (p : FsPath) : Bool :=
  (match p.getLast? with
   | some n => startsDot n
   | none => false)
  || p.any (fun c => startsDot c)

/-- A source directory tree, for modelling `WalkDir` traversal. -/
inductive FsTree where
  | file : String → FsTree
  | dir : String → List FsTree → FsTree
deriving Repr

/-- Name of a tree node. -/
def FsTree.name : FsTree → String
  | .file n => n
  | .dir n _ => n

/-- A walked directory entry: its full path and whether it is a regular
file. -/
structure WEntry where
  path : FsPath
  isFile : Bool
deriving Repr, DecidableEq

mutual
/-- `WalkDir::new(path)` over `t` (whose root entry has path `path`) with
`filter_entry(keep)`: an entry failing `keep` is skipped and, if a
directory, not descended into. -/
def walkFrom (keep : WEntry → Bool) (path : FsPath) : FsTree → List WEntry
  | .file _ =>
    if keep ⟨path, true⟩ then [⟨path, true⟩] else []
  | .dir _ cs =>
    if keep ⟨path, false⟩ then ⟨path, false⟩ :: walkMany keep path cs else []

/-- Walk of a list of children below the directory at `parent`. -/
def walkMany (keep : WEntry → Bool) (parent : FsPath) : List FsTree → List WEntry
  | [] => []
  | t :: ts => walkFrom keep (parent ++ [t.name]) t ++ walkMany keep parent ts
end

/-- The candidate file paths the orchestrator loop iterates over
(src/file_processor.rs): `WalkDir` with hidden entries pruned via
`filter_entry`, restricted to regular files, then the extension filter of
`should_process_file`. -/
def candidateFiles (source_dir : FsPath) (tree : FsTree) (exts : List String) :
    List FsPath :=
  (((walkFrom (fun e => !(is_hidden e.path)) source_dir tree).filter
      (fun e => e.isFile)).map (fun e => e.path)).filter
    (fun p => has_extension p exts)

/-- `process_file` (src/file_processor.rs): hash, store, record — note the
source passes `md5_hex`, not the computed `_full_md5_path`, to
`create_timestamp_record`.  Returns the mutated filesystem and the error,
if any, that `?` propagated. -/
def process_file (canon : FsPath → FsPath) (md5fn : String → List Nat)
    (fs : FS) (path source_base md5_dir timestamp_dir : FsPath) :
    FS × Option Err :=
  match calculate_md5 md5fn fs path with
  | Except.error e => (fs, some e)
  | Except.ok md5_hex =>
    match handle_md5_copy canon fs path md5_dir md5_hex with
    | (fs1, Except.error e) => (fs1, some e)
    | (fs1, Except.ok _full_md5_path) =>
      match create_timestamp_record fs1 path source_base timestamp_dir md5_hex with
      | (fs2, Except.error e) => (fs2, some e)
      | (fs2, Except.ok _) => (fs2, none)

/-- The diagnostic line printed for a failed file. -/
def mkErrMsg (p : FsPath) (e : Err) : String :=
  "Error processing " ++ renderPath p ++ ": " ++ errText e

/-- `process_files_with_extensions` (src/file_processor.rs): create the store
root and the timestamped run directory, then for each candidate run
`process_file`, catching any per-file error as a diagnostic message and
continuing.  Initial directory creation is modelled as total (the claims
condition on its success); the run then always returns `Ok`. -/
def process_files_with_extensions (canon : FsPath → FsPath)
    (md5fn : String → List Nat) (fs0 : FS) (source_dir : FsPath)
    (tree : FsTree) (target_base : FsPath) (timestamp : String)
    (exts : List String) : Except Err (FS × List String) :=
  let md5_dir := target_base ++ ["files_by_md5"]
  let timestamp_dir := target_base ++ [timestamp]
  let fs1 := createDirAll (createDirAll fs0 md5_dir) timestamp_dir
  Except.ok ((candidateFiles source_dir tree exts).foldl
    (fun acc p =>
      match process_file canon md5fn acc.1 p source_dir md5_dir timestamp_dir with
      | (fs', none) => (fs', acc.2)
      | (fs', some e) => (fs', acc.2 ++ [mkErrMsg p e]))
    (fs1, []))

/-- One lowercase hexadecimal ASCII character. -/
def isHexLowerChar (c : Char) : Bool :=
  (decide ('0' ≤ c) && decide (c ≤ '9')) || (decide ('a' ≤ c) && decide (c ≤ 'f'))

/-- Whether a store `put` outcome is the modelled slice panic. -/
def isSlicePanic (r : Except Err String) : Bool :=
  match r with
  | Except.error Err.slicePanic => true
  | _ => false

/-- Whether a run outcome is `Ok`. -/
def exceptIsOk {α : Type} (r : Except Err α) : Bool :=
  match r with
  | Except.ok _ => true
  | Except.error _ => false

/-- Modelled from the spec claim wording for the selection rule: a file is
selected iff the substring of its name after the final period, lowercased,
is a member of the accepted set; a name with no period is never selected. -/
def selectedAfterFinalDot (name : String) (exts : List String) : Bool :=
  match lastDotSplit name.data with
  | none => false
  | some (_, a) => exts.contains (lowerAscii (String.mk a))

/-- A name whose only period is the leading one (a dotfile such as
`.hidden`): the case where Rust's extension rule deviates from
"substring after the final period". -/
def leadingDotOnly (name : String) : Bool :=
  match lastDotSplit name.data with
  | some ([], _) => true
  | _ => false

/- Concrete inputs used by witnesses and counterexamples. -/

/-- The 32-zero fingerprint (digest bytes all `0x00`). -/
def hexZeros : String := formatHexDigest (List.replicate 16 0)

/-- The all-`ff` fingerprint (digest bytes all `0xff`). -/
def hexFs : String := formatHexDigest (List.replicate 16 255)

/-- A digest function fixing every file's digest to sixteen `0x01` bytes,
for concrete runs of the pipeline. -/
def c1md5fn : String → List Nat := fun _ => List.replicate 16 1

/-- The corresponding fingerprint string `0101…01`. -/
def c1hex : String := formatHexDigest (List.replicate 16 1)

/-- A source tree holding one file `src/a.txt`. -/
def c1fs0 : FS := ⟨[], [(["src", "a.txt"], "data")]⟩

/-- A resolution function prepending an `abs` component, modelling a
relative path canonicalized against a working directory. -/
def exCanonAbs : FsPath → FsPath := fun p => "abs" :: p

/-- Two distinct source files with identical content. -/
def c3fsIn : FS := ⟨[], [(["s1"], "x"), (["s2"], "x")]⟩

/-- Source filesystem for the store-layout witness. -/
def c2fsIn : FS := ⟨[], [(["s"], "x")]⟩

/-- The store state after putting `hexZeros` from `c2fsIn`. -/
def c2fsOut : FS :=
  ⟨[["m"], ["m", "00"]], [((["m", "00"] ++ [hexZeros]), "x"), (["s"], "x")]⟩

/-- A source tree with a hidden directory holding a matching file. -/
def c4tree : FsTree :=
  FsTree.dir "root"
    [FsTree.dir ".h" [FsTree.file "x.txt"], FsTree.file "ok.txt"]

/-- Canonical-resolution function that absolutizes against `/cwd`. -/
def c6canon : FsPath → FsPath := fun p => "" :: "cwd" :: p

/-- Source filesystem for the return-path counterexample. -/
def c6fsIn : FS := ⟨[], [(["s"], "x")]⟩

/-- The store state after the first `put` of `hexFs` from `c6fsIn` under the
relative root `rel`. -/
def c6fsOut : FS :=
  ⟨[["rel"], ["rel", "ff"]], [((["rel", "ff"] ++ [hexFs]), "x"), (["s"], "x")]⟩

/-- Run output of the frame witness: the orchestrator on an unreadable
single-file source with target base `tb`. -/
def c9fsOut : FS :=
  ⟨[["tb"], ["tb", "ts1"], ["tb"], ["tb", "files_by_md5"]], []⟩

/-- Frame relation for the run: directories only grow, and at every path not
under the target base both the file content and directory existence are
exactly as in the initial state `fs0`. -/
def FrameOK (tb : FsPath) (fs0 fs : FS) : Prop :=
  (∀ q, q ∈ fs0.dirs → q ∈ fs.dirs) ∧
  ∀ p, under tb p = false →
    lookupFile fs p = lookupFile fs0 p ∧ (p ∈ fs.dirs ↔ p ∈ fs0.dirs)

/-- The ancestors of the target base already exist initially (the setting of
a run whose fatal setup step succeeded against a reachable target base):
`create_dir_all` on paths under the base then creates nothing outside it. -/
def AncReady (tb : FsPath) (fs0 : FS) : Prop :=
  ∀ q, q ≠ [] → under q tb = true → q ≠ tb → q ∈ fs0.dirs

/-! ### Basic lemmas about path prefixes and the filesystem model -/

theorem under_refl (p : FsPath) : under p p = true := by
  induction p with
  | nil => rfl
  | cons a as ih => simp [under, ih]

theorem under_append (a t : FsPath) : under a (a ++ t) = true := by
  induction a with
  | nil => rfl
  | cons x xs ih => simp [under, ih]

theorem exists_of_under {a p : FsPath} (h : under a p = true) :
    ∃ t, p = a ++ t := by
  induction a generalizing p with
  | nil => exact ⟨p, rfl⟩
  | cons x xs ih =>
    cases p with
    | nil => simp [under] at h
    | cons b bs =>
      simp only [under, Bool.and_eq_true, decide_eq_true_eq] at h
      obtain ⟨t, ht⟩ := ih h.2
      exact ⟨t, by simp [h.1, ht]⟩

theorem under_extend {a x : FsPath} (y : FsPath) (h : under a x = true) :
    under a (x ++ y) = true := by
  obtain ⟨t, rfl⟩ := exists_of_under h
  rw [List.append_assoc]
  exact under_append a (t ++ y)

theorem length_le_of_under {q p : FsPath} (h : under q p = true) :
    q.length ≤ p.length := by
  obtain ⟨t, rfl⟩ := exists_of_under h
  simp

theorem under_compare {q b x : FsPath} (hq : under q x = true)
    (hb : under b x = true) : under q b = true ∨ under b q = true := by
  induction x generalizing q b with
  | nil =>
    cases q with
    | nil => exact Or.inl rfl
    | cons _ _ => simp [under] at hq
  | cons a as ih =>
    cases q with
    | nil => exact Or.inl rfl
    | cons c cs =>
      cases b with
      | nil => exact Or.inr rfl
      | cons e es =>
        simp only [under, Bool.and_eq_true, decide_eq_true_eq] at hq hb
        rcases ih hq.2 hb.2 with h | h
        · exact Or.inl (by simp [under, hq.1, hb.1, h])
        · exact Or.inr (by simp [under, hq.1, hb.1, h])

theorem mem_initsOf {q p : FsPath} :
    q ∈ initsOf p ↔ q ≠ [] ∧ under q p = true := by
  induction p generalizing q with
  | nil =>
    simp only [initsOf, List.not_mem_nil, false_iff]
    rintro ⟨hne, hu⟩
    cases q with
    | nil => exact hne rfl
    | cons _ _ => simp [under] at hu
  | cons a as ih =>
    simp only [initsOf, List.mem_cons, List.mem_map]
    constructor
    · rintro (rfl | ⟨q', hq', rfl⟩)
      · exact ⟨by simp, by simp [under, under_refl]⟩
      · have := ih.mp hq'
        exact ⟨by simp, by simp [under, this.2]⟩
    · rintro ⟨hne, hu⟩
      cases q with
      | nil => exact absurd rfl hne
      | cons c cs =>
        simp only [under, Bool.and_eq_true, decide_eq_true_eq] at hu
        cases cs with
        | nil => exact Or.inl (by simp [hu.1])
        | cons d ds =>
          exact Or.inr ⟨d :: ds, ih.mpr ⟨by simp, hu.2⟩, by simp [hu.1]⟩

theorem stripRel_none_iff {b p : FsPath} :
    stripRel b p = none ↔ under b p = false := by
  induction b generalizing p with
  | nil => simp [stripRel, under]
  | cons a as ih =>
    cases p with
    | nil => simp [stripRel, under]
    | cons c cs =>
      by_cases h : a = c
      · subst h
        simp [stripRel, under, ih]
      · simp [stripRel, under, h]

theorem stripRel_some_of_under {b p : FsPath} (h : under b p = true) :
    stripRel b p = some (p.drop b.length) := by
  induction b generalizing p with
  | nil => simp [stripRel]
  | cons a as ih =>
    cases p with
    | nil => simp [under] at h
    | cons c cs =>
      simp only [under, Bool.and_eq_true, decide_eq_true_eq] at h
      simp [stripRel, h.1, ih h.2]

theorem dropLast_append_ne_nil {α : Type} (a : List α) {y : List α}
    (hy : y ≠ []) : (a ++ y).dropLast = a ++ y.dropLast := by
  induction a with
  | nil => rfl
  | cons x xs ih =>
    cases hxy : xs ++ y with
    | nil =>
      rcases List.append_eq_nil.mp hxy with ⟨-, h⟩
      exact absurd h hy
    | cons z zs =>
      simp only [List.cons_append, hxy, List.dropLast_cons₂, List.cons.injEq]
      rw [← hxy, ih]
      simp

theorem dirExists_iff {fs : FS} {p : FsPath} :
    dirExists fs p = true ↔ p ∈ fs.dirs := by
  simp [dirExists, List.any_eq_true]

theorem lookupFile_files {fs fs' : FS} (h : fs.files = fs'.files) (p : FsPath) :
    lookupFile fs p = lookupFile fs' p := by
  simp [lookupFile, h]

theorem lookupFile_cons_ne {d : List FsPath} {l : List (FsPath × String)}
    {k p : FsPath} {v : String} (h : k ≠ p) :
    lookupFile ⟨d, (k, v) :: l⟩ p = lookupFile ⟨d, l⟩ p := by
  simp [lookupFile, List.find?_cons, h]

theorem lookupFile_cons_self {d : List FsPath} {l : List (FsPath × String)}
    {k : FsPath} {v : String} :
    lookupFile ⟨d, (k, v) :: l⟩ k = some v := by
  simp [lookupFile, List.find?_cons]

theorem copyCount_zero_of_not_fileExists {fs : FS} {p : FsPath}
    (h : fileExists fs p = false) : copyCount fs p = 0 := by
  rw [copyCount, List.countP_eq_zero]
  intro pc hpc
  simp only [fileExists, List.any_eq_false] at h
  exact h pc hpc

/-! ### Traversal lemmas: every yielded entry satisfies the filter -/

mutual
theorem keep_of_mem_walkFrom {keep : WEntry → Bool} {path : FsPath}
    {t : FsTree} {e : WEntry} (h : e ∈ walkFrom keep path t) :
    keep e = true := by
  cases t with
  | file n =>
    rw [walkFrom] at h
    split at h
    · rcases List.mem_singleton.mp h with rfl
      assumption
    · simp at h
  | dir n cs =>
    rw [walkFrom] at h
    split at h
    · rcases List.mem_cons.mp h with rfl | h'
      · assumption
      · exact keep_of_mem_walkMany h'
    · simp at h

theorem keep_of_mem_walkMany {keep : WEntry → Bool} {parent : FsPath}
    {ts : List FsTree} {e : WEntry} (h : e ∈ walkMany keep parent ts) :
    keep e = true := by
  cases ts with
  | nil => simp [walkMany] at h
  | cons t ts' =>
    rw [walkMany] at h
    rcases List.mem_append.mp h with h' | h'
    · exact keep_of_mem_walkFrom h'
    · exact keep_of_mem_walkMany h'
end

/-! ### Hex formatting and slice lemmas -/

theorem hexDigit_utf8Size (n : Nat) : (hexDigit n).utf8Size = 1 := by
  rcases n with _|_|_|_|_|_|_|_|_|_|_|_|_|_|_|n <;> rfl

theorem hexDigit_isHexLower (n : Nat) : isHexLowerChar (hexDigit n) = true := by
  rcases n with _|_|_|_|_|_|_|_|_|_|_|_|_|_|_|n <;> rfl

theorem bytesHex_length (d : List Nat) : (bytesHex d).length = 2 * d.length := by
  induction d with
  | nil => rfl
  | cons b bs ih => simp [bytesHex, byteHex, ih]; ring

theorem bytesHex_all_hex (d : List Nat) :
    (bytesHex d).all isHexLowerChar = true := by
  induction d with
  | nil => rfl
  | cons b bs ih =>
    simp only [bytesHex, byteHex, List.all_append, List.all_cons, List.all_nil,
      Bool.and_eq_true]
    exact ⟨⟨hexDigit_isHexLower _, hexDigit_isHexLower _, trivial⟩, ih⟩

theorem formatHexDigest_length {d : List Nat} (hd : d.length = 16) :
    (formatHexDigest d).length = 32 := by
  show (bytesHex d).length = 32
  rw [bytesHex_length, hd]

theorem slice2_of_sizes {c1 c2 : Char} (l : List Char)
    (h1 : c1.utf8Size = 1) (h2 : c2.utf8Size = 1) :
    sliceBytesTo (c1 :: c2 :: l) 2 = some [c1, c2] := by
  simp [sliceBytesTo, h1, h2]

theorem slice2_formatHexDigest {d : List Nat} (hd : d.length = 16) :
    sliceBytesTo (formatHexDigest d).data 2 =
      some ((formatHexDigest d).data.take 2) := by
  cases d with
  | nil => simp at hd
  | cons b bs =>
    show sliceBytesTo (bytesHex (b :: bs)) 2 = some ((bytesHex (b :: bs)).take 2)
    simp only [bytesHex, byteHex, List.cons_append, List.nil_append]
    rw [slice2_of_sizes _ (hexDigit_utf8Size _) (hexDigit_utf8Size _)]
    rfl

/-! ### Claim C4: hidden entries never become processing candidates -/

/-- Claim C4: any filesystem entry whose own name, or any path component,
starts with a leading period is never yielded by the filtered traversal as a
processing candidate — hidden directories prune their whole subtree — so such
files produce no store entry and no pointer record. -/
theorem c4_hidden_entries_never_candidates (source_dir : FsPath) (tree : FsTree)
    (exts : List String) (p : FsPath)
    (hp : p.any (fun c => startsDot c) = true) :
    p ∉ candidateFiles source_dir tree exts := by
  intro hmem
  unfold candidateFiles at hmem
  rcases List.mem_filter.mp hmem with ⟨hmem1, -⟩
  rcases List.mem_map.mp hmem1 with ⟨e, he, rfl⟩
  rcases List.mem_filter.mp he with ⟨he1, -⟩
  have hk := keep_of_mem_walkFrom he1
  rw [Bool.not_eq_true'] at hk
  rw [is_hidden, Bool.or_eq_false_iff] at hk
  rw [hk.2] at hp
  exact Bool.false_ne_true hp

/-- Witness for C4 at a concrete tree: `base/.h/x.txt` sits inside a hidden
directory and is indeed not among the candidates. -/
theorem c4_hidden_entries_never_candidates_witness :
    ((["base", ".h", "x.txt"] : FsPath).any (fun c => startsDot c) = true) ∧
    ["base", ".h", "x.txt"] ∉ candidateFiles ["base"] c4tree ["txt"] :=
  ⟨by decide,
   c4_hidden_entries_never_candidates ["base"] c4tree ["txt"] _ (by decide)⟩

/-! ### Claim C1: the pointer record holds the fingerprint, not the path -/

/-- Claim C1 (refuted — code bug): on a concrete successful run of
`process_file` (src/file_processor.rs), the pointer record's entire content
is the 32-character fingerprint, not the resolved path of the Content Store
entry: the source computes the store path into `_full_md5_path` and then
passes `md5_hex` to `create_timestamp_record`, contradicting that function's
`full_md5_path` parameter, the spec, and the parallel code in src/main.rs. -/
theorem c1_pointer_record_content_is_fingerprint :
    (process_file (fun p => p) c1md5fn c1fs0 ["src", "a.txt"] ["src"]
        ["tb", "files_by_md5"] ["tb", "T1"]).2 = none ∧
    lookupFile (process_file (fun p => p) c1md5fn c1fs0 ["src", "a.txt"] ["src"]
        ["tb", "files_by_md5"] ["tb", "T1"]).1 ["tb", "T1", "a.txt"] =
      some c1hex ∧
    fileExists (process_file (fun p => p) c1md5fn c1fs0 ["src", "a.txt"] ["src"]
        ["tb", "files_by_md5"] ["tb", "T1"]).1
      (["tb", "files_by_md5", "01"] ++ [c1hex]) = true ∧
    c1hex ≠ renderPath (["tb", "files_by_md5", "01"] ++ [c1hex]) := by
  decide

/-! ### Claim C7: snapshot record location and the path error -/

/-- Claim C7: `create_timestamp_record` fails with the path error exactly when
the source path is not rooted under the source base; otherwise it succeeds,
writes the pointer file at the run directory joined with the relative path
(preserving the nested structure), with every intermediate directory of the
record's parent created. -/
theorem c7_pointer_record_location (fs : FS) (sp base tsdir : FsPath)
    (loc : String) :
    ((create_timestamp_record fs sp base tsdir loc).2 =
        Except.error Err.pathError ↔ under base sp = false) ∧
    (under base sp = true →
      (create_timestamp_record fs sp base tsdir loc).2 = Except.ok () ∧
      lookupFile (create_timestamp_record fs sp base tsdir loc).1
        (tsdir ++ sp.drop base.length) = some loc ∧
      ∀ q ∈ initsOf ((tsdir ++ sp.drop base.length).dropLast),
        q ∈ (create_timestamp_record fs sp base tsdir loc).1.dirs) := by
  cases hstrip : stripRel base sp with
  | none =>
    have hu : under base sp = false := stripRel_none_iff.mp hstrip
    refine ⟨by simp [create_timestamp_record, hstrip, hu], ?_⟩
    intro h
    rw [h] at hu
    exact absurd hu (by simp)
  | some rel =>
    have hu : under base sp = true := by
      cases h : under base sp
      · exact absurd (stripRel_none_iff.mpr h) (by simp [hstrip])
      · rfl
    have hrel : rel = sp.drop base.length := by
      have h2 := stripRel_some_of_under hu
      rw [hstrip] at h2
      injection h2
    subst hrel
    refine ⟨by simp [create_timestamp_record, hstrip, hu], ?_⟩
    intro _
    refine ⟨by simp [create_timestamp_record, hstrip], ?_, ?_⟩
    · simp [create_timestamp_record, hstrip, lookupFile, List.find?_cons]
    · intro q hq
      simp only [create_timestamp_record, hstrip, createDirAll]
      exact List.mem_append.mpr (Or.inl hq)

/-- Witness for C7: a mismatched pair of roots produces the path error, and a
nested source `root/a/b/c.txt` produces a record at `run/a/b/c.txt`. -/
theorem c7_pointer_record_location_witness :
    under ["root"] ["other", "c.txt"] = false ∧
    (create_timestamp_record ⟨[], []⟩ ["other", "c.txt"] ["root"] ["run"]
        "LOC").2 = Except.error Err.pathError ∧
    under ["root"] ["root", "a", "b", "c.txt"] = true ∧
    lookupFile (create_timestamp_record ⟨[], []⟩ ["root", "a", "b", "c.txt"]
        ["root"] ["run"] "LOC").1 ["run", "a", "b", "c.txt"] = some "LOC" :=
  ⟨by decide,
   (c7_pointer_record_location ⟨[], []⟩ ["other", "c.txt"] ["root"] ["run"]
      "LOC").1.mpr (by decide),
   by decide,
   ((c7_pointer_record_location ⟨[], []⟩ ["root", "a", "b", "c.txt"] ["root"]
      ["run"] "LOC").2 (by decide)).2.1⟩

/-! ### Claim C8: the extension selection rule -/

/-- Claim C8 counterexample: for the dotfile name `.hidden` with accepted set
`{hidden}`, the claimed rule (substring after the final period) selects the
file, but the code's `has_extension` does not — Rust's `Path::extension`
treats a name whose only period is the leading one as having no extension. -/
theorem c8_selection_rule_counterexample :
    has_extension [".hidden"] ["hidden"] = false ∧
    selectedAfterFinalDot ".hidden" ["hidden"] = true := by
  decide

/-- Claim C8 as amended: a candidate file is selected iff the substring of its
name after the final period, lowercased, is in the accepted set — except that
a name whose only period is the leading one (a dotfile) counts as having no
extension and is never selected; a name with no period is never selected. -/
theorem c8_selection_rule_amended (p : FsPath) (name : String)
    (exts : List String) (hname : p.getLast? = some name) :
    has_extension p exts =
      (selectedAfterFinalDot name exts && !(leadingDotOnly name)) := by
  rw [has_extension, hname]
  cases hsplit : lastDotSplit name.data with
  | none =>
    simp [rustExtension, selectedAfterFinalDot, leadingDotOnly, hsplit]
  | some ba =>
    obtain ⟨b, a⟩ := ba
    cases b with
    | nil =>
      simp [rustExtension, selectedAfterFinalDot, leadingDotOnly, hsplit]
    | cons x xs =>
      simp [rustExtension, selectedAfterFinalDot, leadingDotOnly, hsplit]

/-- Witness for C8 (amended) at a concrete mixed-case name. -/
theorem c8_selection_rule_amended_witness :
    has_extension ["d", "Report.TXT"] ["txt"] =
      (selectedAfterFinalDot "Report.TXT" ["txt"] &&
        !(leadingDotOnly "Report.TXT")) :=
  c8_selection_rule_amended ["d", "Report.TXT"] "Report.TXT" ["txt"] rfl

/-! ### Claim C10: the fingerprint slice is always safe -/

/-- Claim C10: every fingerprint produced by the digest engine is a
32-character lowercase-hex ASCII string, the two-byte slice taken by the
store is in bounds and on character boundaries (it equals the first two
characters), and the store operation never reaches the slice panic for such
fingerprints. -/
theorem c10_fingerprint_slice_safe (canon : FsPath → FsPath) (fs : FS)
    (sp md5_dir : FsPath) (d : List Nat) (hd : d.length = 16) :
    (formatHexDigest d).length = 32 ∧
    (formatHexDigest d).data.all isHexLowerChar = true ∧
    sliceBytesTo (formatHexDigest d).data 2 =
      some ((formatHexDigest d).data.take 2) ∧
    isSlicePanic (handle_md5_copy canon fs sp md5_dir (formatHexDigest d)).2 =
      false := by
  refine ⟨formatHexDigest_length hd, bytesHex_all_hex d,
    slice2_formatHexDigest hd, ?_⟩
  simp only [handle_md5_copy, slice2_formatHexDigest hd]
  split
  · rfl
  · split <;> rfl

/-- Witness for C10 at the all-`ff` digest, exercising also the copy-failure
branch (the result is an IO error, never the slice panic). -/
theorem c10_fingerprint_slice_safe_witness :
    (List.replicate 16 (255 : Nat)).length = 16 ∧
    isSlicePanic (handle_md5_copy (fun p => p) ⟨[], []⟩ ["x"] ["m"]
      (formatHexDigest (List.replicate 16 255))).2 = false :=
  ⟨by decide,
   (c10_fingerprint_slice_safe (fun p => p) ⟨[], []⟩ ["x"] ["m"]
      (List.replicate 16 255) (by decide)).2.2.2⟩

/-! ### Claim C5: per-file failures never abort the run -/

theorem foldl_log_sources (canon : FsPath → FsPath) (md5fn : String → List Nat)
    (src md5_dir tsdir : FsPath) (xs : List FsPath) :
    ∀ (fs : FS) (log : List String) (m : String),
      m ∈ (xs.foldl (fun acc p =>
          match process_file canon md5fn acc.1 p src md5_dir tsdir with
          | (fs', none) => (fs', acc.2)
          | (fs', some e) => (fs', acc.2 ++ [mkErrMsg p e])) (fs, log)).2 →
      m ∈ log ∨ ∃ p e, p ∈ xs ∧ m = mkErrMsg p e := by
  induction xs with
  | nil =>
    intro fs log m hm
    exact Or.inl hm
  | cons x xs ih =>
    intro fs log m hm
    rw [List.foldl_cons] at hm
    rcases hstep : process_file canon md5fn fs x src md5_dir tsdir with ⟨fs', e?⟩
    rw [hstep] at hm
    cases e? with
    | none =>
      rcases ih fs' log m hm with h | ⟨p, e, hp, hme⟩
      · exact Or.inl h
      · exact Or.inr ⟨p, e, List.mem_cons_of_mem _ hp, hme⟩
    | some e =>
      rcases ih fs' (log ++ [mkErrMsg x e]) m hm with h | ⟨p, e', hp, hme⟩
      · rcases List.mem_append.mp h with h' | h'
        · exact Or.inl h'
        · exact Or.inr ⟨x, e, List.mem_cons_self _ _,
            by rw [List.mem_singleton.mp h']⟩
      · exact Or.inr ⟨p, e', List.mem_cons_of_mem _ hp, hme⟩

/-- Claim C5: once the initial directory creation has succeeded (built into
the model, which the claim conditions on), the run returns `Ok` however many
candidates fail: every per-file error is caught at the loop boundary and
becomes a diagnostic line attributed to some candidate, and traversal runs
to exhaustion. -/
theorem c5_run_succeeds_despite_file_errors (canon : FsPath → FsPath)
    (md5fn : String → List Nat) (fs0 : FS) (src : FsPath) (tree : FsTree)
    (tb : FsPath) (ts : String) (exts : List String) :
    ∃ out, process_files_with_extensions canon md5fn fs0 src tree tb ts exts =
        Except.ok out ∧
      ∀ m ∈ out.2, ∃ p e, p ∈ candidateFiles src tree exts ∧ m = mkErrMsg p e := by
  refine ⟨_, rfl, ?_⟩
  intro m hm
  rcases foldl_log_sources canon md5fn src (tb ++ ["files_by_md5"])
      (tb ++ [ts]) (candidateFiles src tree exts)
      (createDirAll (createDirAll fs0 (tb ++ ["files_by_md5"])) (tb ++ [ts]))
      [] m hm with h | h
  · exact absurd h (List.not_mem_nil m)
  · exact h

/-- Witness for C5: a run over a single unreadable candidate still returns
`Ok`. -/
theorem c5_run_succeeds_despite_file_errors_witness :
    exceptIsOk (process_files_with_extensions (fun p => p) c1md5fn ⟨[], []⟩
      ["a.txt"] (FsTree.file "a.txt") ["tb"] "ts1" ["txt"]) = true := by
  obtain ⟨out, ho, -⟩ := c5_run_succeeds_despite_file_errors (fun p => p)
    c1md5fn ⟨[], []⟩ ["a.txt"] (FsTree.file "a.txt") ["tb"] "ts1" ["txt"]
  rw [ho]
  rfl

/-! ### Claim C2: store entries live at `store_root/<first-2-hex>/<fingerprint>` -/

/-- Claim C2: whenever the store `put` succeeds on a pipeline fingerprint,
the entry is present at the store root joined with the shard named by the
first two characters of the fingerprint and then the full fingerprint as
filename; the shard directory exists; and the only possible change to the
file map is the addition of exactly that entry, holding the source bytes. -/
theorem c2_store_entry_sharded (canon : FsPath → FsPath) (fs : FS)
    (sp md5_dir : FsPath) (d : List Nat) (fs' : FS) (r : String)
    (hd : d.length = 16)
    (hok : handle_md5_copy canon fs sp md5_dir (formatHexDigest d) =
      (fs', Except.ok r)) :
    pathExists fs'
      (md5_dir ++ [String.mk ((formatHexDigest d).data.take 2)] ++
        [formatHexDigest d]) = true ∧
    (md5_dir ++ [String.mk ((formatHexDigest d).data.take 2)]) ∈ fs'.dirs ∧
    (fs'.files = fs.files ∨
      fs'.files =
        ((md5_dir ++ [String.mk ((formatHexDigest d).data.take 2)] ++
            [formatHexDigest d]), (lookupFile fs sp).getD "") :: fs.files) := by
  simp only [handle_md5_copy, slice2_formatHexDigest hd] at hok
  have hsub : (md5_dir ++ [String.mk ((formatHexDigest d).data.take 2)]) ∈
      (createDirAll fs
        (md5_dir ++ [String.mk ((formatHexDigest d).data.take 2)])).dirs := by
    refine List.mem_append.mpr (Or.inl (mem_initsOf.mpr ⟨?_, under_refl _⟩))
    simp
  split at hok
  case isTrue hex =>
    injection hok with h1 h2
    subst h1
    exact ⟨hex, hsub, Or.inl rfl⟩
  case isFalse hex =>
    split at hok
    case h_1 heq =>
      exact Except.noConfusion (congrArg Prod.snd hok)
    case h_2 content heq =>
      injection hok with h1 h2
      subst h1
      refine ⟨?_, hsub, Or.inr ?_⟩
      · simp [pathExists, fileExists]
      · have hlk : lookupFile fs sp = some content := heq
        rw [hlk]
        rfl

/-- Witness for C2: putting the all-zero fingerprint from a fresh store
creates the entry at `m/00/<fingerprint>`. -/
theorem c2_store_entry_sharded_witness :
    (List.replicate 16 (0 : Nat)).length = 16 ∧
    handle_md5_copy (fun p => p) c2fsIn ["s"] ["m"] hexZeros =
      (c2fsOut, Except.ok ("m/00/" ++ hexZeros)) ∧
    (pathExists c2fsOut
        (["m"] ++ [String.mk (hexZeros.data.take 2)] ++ [hexZeros]) = true ∧
      (["m"] ++ [String.mk (hexZeros.data.take 2)]) ∈ c2fsOut.dirs ∧
      (c2fsOut.files = c2fsIn.files ∨
        c2fsOut.files =
          ((["m"] ++ [String.mk (hexZeros.data.take 2)] ++ [hexZeros]),
            (lookupFile c2fsIn ["s"]).getD "") :: c2fsIn.files)) :=
  ⟨rfl, rfl,
   c2_store_entry_sharded (fun p => p) c2fsIn ["s"] ["m"]
     (List.replicate 16 0) c2fsOut ("m/00/" ++ hexZeros) rfl rfl⟩

/-! ### Claim C3: putting the same fingerprint twice -/

/-- Claim C3 counterexample: with a relative store root (as in the program's
own usage example `./target`), two `put` calls with the same fingerprint
against sources of identical content both succeed, but they do not return
the same resolved location string: the first call returns the unresolved
path (canonicalization fails while the entry does not yet exist), the second
the canonicalized one. -/
theorem c3_put_twice_same_location_counterexample :
    (handle_md5_copy exCanonAbs c3fsIn ["s1"] ["m"] hexZeros).2 =
      Except.ok ("m/00/" ++ hexZeros) ∧
    (handle_md5_copy exCanonAbs
        (handle_md5_copy exCanonAbs c3fsIn ["s1"] ["m"] hexZeros).1
        ["s2"] ["m"] hexZeros).2 = Except.ok ("abs/m/00/" ++ hexZeros) ∧
    ("m/00/" ++ hexZeros : String) ≠ ("abs/m/00/" ++ hexZeros : String) := by
  refine ⟨rfl, rfl, by decide⟩

theorem lookupFile_createDirAll (fs : FS) (p q : FsPath) :
    lookupFile (createDirAll fs p) q = lookupFile fs q := rfl

theorem not_mem_initsOf_append_last (p : FsPath) (x : String) :
    (p ++ [x]) ∉ initsOf p := by
  intro h
  have hu := (mem_initsOf.mp h).2
  have hlen := length_le_of_under hu
  simp at hlen

theorem pathExists_createDirAll_of_not_mem {fs : FS} {q : FsPath} (p : FsPath)
    (h : pathExists fs q = false) (hq : q ∉ initsOf p) :
    pathExists (createDirAll fs p) q = false := by
  simp only [pathExists, dirExists, fileExists, createDirAll, List.any_append,
    Bool.or_eq_false_iff] at h ⊢
  refine ⟨⟨?_, h.1⟩, h.2⟩
  rw [List.any_eq_false]
  intro a ha
  simp only [decide_eq_true_eq]
  intro heq
  exact hq (heq ▸ ha)

theorem copyCount_cons_self_of_absent {fs : FS} {t : FsPath}
    (hfe : fileExists fs t = false) (d' : List FsPath) (v : String) :
    copyCount ⟨d', (t, v) :: fs.files⟩ t = 1 := by
  have h0 : copyCount fs t = 0 := copyCount_zero_of_not_fileExists hfe
  simp only [copyCount, List.countP_cons] at h0 ⊢
  simp [h0]

/-- Claim C3 as amended: putting the same pipeline fingerprint twice against
two sources of identical content yields two successful returns and exactly
one physical copy (the second call copies nothing); but the first call
returns the literal store path — canonicalization fails because the entry
does not yet exist when attempted — while the second returns the
canonicalized store path, so the two returned strings coincide exactly when
canonicalization fixes that path (e.g. an absolute, symlink-free store). -/
theorem c3_put_twice_dedup_amended (canon : FsPath → FsPath) (fs : FS)
    (sp1 sp2 md5_dir : FsPath) (d : List Nat) (c : String)
    (hd : d.length = 16)
    (h1 : lookupFile fs sp1 = some c) (h2 : lookupFile fs sp2 = some c)
    (habs : pathExists fs
      (md5_dir ++ [String.mk ((formatHexDigest d).data.take 2)] ++
        [formatHexDigest d]) = false) :
    (handle_md5_copy canon fs sp1 md5_dir (formatHexDigest d)).2 =
      Except.ok (renderPath
        (md5_dir ++ [String.mk ((formatHexDigest d).data.take 2)] ++
          [formatHexDigest d])) ∧
    (handle_md5_copy canon
        (handle_md5_copy canon fs sp1 md5_dir (formatHexDigest d)).1
        sp2 md5_dir (formatHexDigest d)).2 =
      Except.ok (renderPath (canon
        (md5_dir ++ [String.mk ((formatHexDigest d).data.take 2)] ++
          [formatHexDigest d]))) ∧
    (handle_md5_copy canon
        (handle_md5_copy canon fs sp1 md5_dir (formatHexDigest d)).1
        sp2 md5_dir (formatHexDigest d)).1.files =
      (handle_md5_copy canon fs sp1 md5_dir (formatHexDigest d)).1.files ∧
    copyCount (handle_md5_copy canon
        (handle_md5_copy canon fs sp1 md5_dir (formatHexDigest d)).1
        sp2 md5_dir (formatHexDigest d)).1
      (md5_dir ++ [String.mk ((formatHexDigest d).data.take 2)] ++
        [formatHexDigest d]) = 1 := by
  have hpe1 : pathExists
      (createDirAll fs (md5_dir ++ [String.mk ((formatHexDigest d).data.take 2)]))
      (md5_dir ++ [String.mk ((formatHexDigest d).data.take 2)] ++
        [formatHexDigest d]) = false :=
    pathExists_createDirAll_of_not_mem _ habs
      (not_mem_initsOf_append_last _ _)
  have e1 : handle_md5_copy canon fs sp1 md5_dir (formatHexDigest d) =
      ⟨createDirAll fs
          (md5_dir ++ [String.mk ((formatHexDigest d).data.take 2)]) |>.dirs
          |> (fun ds => FS.mk ds
            ((md5_dir ++ [String.mk ((formatHexDigest d).data.take 2)] ++
                [formatHexDigest d], c) :: fs.files)),
        Except.ok (renderPath
          (md5_dir ++ [String.mk ((formatHexDigest d).data.take 2)] ++
            [formatHexDigest d]))⟩ := by
    simp only [handle_md5_copy, slice2_formatHexDigest hd, canonOr, hpe1,
      lookupFile_createDirAll, h1]
    rfl
  refine ⟨by rw [e1], ?_, ?_, ?_⟩ <;> rw [e1]
  · have hpe2 : pathExists
        (createDirAll
          (FS.mk (createDirAll fs
              (md5_dir ++ [String.mk ((formatHexDigest d).data.take 2)])).dirs
            ((md5_dir ++ [String.mk ((formatHexDigest d).data.take 2)] ++
                [formatHexDigest d], c) :: fs.files))
          (md5_dir ++ [String.mk ((formatHexDigest d).data.take 2)]))
        (md5_dir ++ [String.mk ((formatHexDigest d).data.take 2)] ++
          [formatHexDigest d]) = true := by
      simp [pathExists, fileExists, createDirAll]
    simp only [handle_md5_copy, slice2_formatHexDigest hd, canonOr, hpe2]
    rfl
  · have hpe2 : pathExists
        (createDirAll
          (FS.mk (createDirAll fs
              (md5_dir ++ [String.mk ((formatHexDigest d).data.take 2)])).dirs
            ((md5_dir ++ [String.mk ((formatHexDigest d).data.take 2)] ++
                [formatHexDigest d], c) :: fs.files))
          (md5_dir ++ [String.mk ((formatHexDigest d).data.take 2)]))
        (md5_dir ++ [String.mk ((formatHexDigest d).data.take 2)] ++
          [formatHexDigest d]) = true := by
      simp [pathExists, fileExists, createDirAll]
    simp only [handle_md5_copy, slice2_formatHexDigest hd, canonOr, hpe2]
    rfl
  · have hpe2 : pathExists
        (createDirAll
          (FS.mk (createDirAll fs
              (md5_dir ++ [String.mk ((formatHexDigest d).data.take 2)])).dirs
            ((md5_dir ++ [String.mk ((formatHexDigest d).data.take 2)] ++
                [formatHexDigest d], c) :: fs.files))
          (md5_dir ++ [String.mk ((formatHexDigest d).data.take 2)]))
        (md5_dir ++ [String.mk ((formatHexDigest d).data.take 2)] ++
          [formatHexDigest d]) = true := by
      simp [pathExists, fileExists, createDirAll]
    simp only [handle_md5_copy, slice2_formatHexDigest hd, canonOr, hpe2]
    have hfe : fileExists fs
        (md5_dir ++ [String.mk ((formatHexDigest d).data.take 2)] ++
          [formatHexDigest d]) = false := by
      simp only [pathExists, Bool.or_eq_false_iff] at habs
      exact habs.2
    exact copyCount_cons_self_of_absent hfe _ _

/-- Witness for C3 (amended) with an already-canonical store root: both calls
then do return the same location, and exactly one copy exists. -/
theorem c3_put_twice_dedup_amended_witness :
    lookupFile c3fsIn ["s1"] = some "x" ∧
    lookupFile c3fsIn ["s2"] = some "x" ∧
    pathExists c3fsIn
      (["m"] ++ [String.mk (hexZeros.data.take 2)] ++ [hexZeros]) = false ∧
    ((handle_md5_copy (fun p => p) c3fsIn ["s1"] ["m"] hexZeros).2 =
        Except.ok (renderPath
          (["m"] ++ [String.mk (hexZeros.data.take 2)] ++ [hexZeros])) ∧
      (handle_md5_copy (fun p => p)
          (handle_md5_copy (fun p => p) c3fsIn ["s1"] ["m"] hexZeros).1
          ["s2"] ["m"] hexZeros).2 =
        Except.ok (renderPath
          (["m"] ++ [String.mk (hexZeros.data.take 2)] ++ [hexZeros])) ∧
      (handle_md5_copy (fun p => p)
          (handle_md5_copy (fun p => p) c3fsIn ["s1"] ["m"] hexZeros).1
          ["s2"] ["m"] hexZeros).1.files =
        (handle_md5_copy (fun p => p) c3fsIn ["s1"] ["m"] hexZeros).1.files ∧
      copyCount (handle_md5_copy (fun p => p)
          (handle_md5_copy (fun p => p) c3fsIn ["s1"] ["m"] hexZeros).1
          ["s2"] ["m"] hexZeros).1
        (["m"] ++ [String.mk (hexZeros.data.take 2)] ++ [hexZeros]) = 1) :=
  ⟨rfl, rfl, rfl,
   c3_put_twice_dedup_amended (fun p => p) c3fsIn ["s1"] ["s2"] ["m"]
     (List.replicate 16 0) "x" rfl rfl rfl rfl⟩

/-! ### Claim C6: what a successful `put` returns -/

/-- Claim C6 counterexample: the first `put` of a fingerprint under a
relative store root succeeds but returns the unresolved relative target path
(not a resolved absolute path): canonicalization is attempted before the
copy, while the entry does not yet exist, and fails. -/
theorem c6_put_returns_unresolved_counterexample :
    (handle_md5_copy c6canon c6fsIn ["s"] ["rel"] hexFs).2 =
      Except.ok ("rel/ff/" ++ hexFs) ∧
    renderPath (c6canon
      (["rel"] ++ [String.mk (hexFs.data.take 2)] ++ [hexFs])) =
      ("/cwd/rel/ff/" ++ hexFs) ∧
    ("rel/ff/" ++ hexFs : String).data.head? ≠ some '/' ∧
    ("rel/ff/" ++ hexFs : String) ≠ ("/cwd/rel/ff/" ++ hexFs) := by
  refine ⟨rfl, rfl, by decide, by decide⟩

/-- Claim C6 as amended: a successful `put` leaves the entry present at the
store target path and returns the canonicalized target path when the entry
already existed before the call, and otherwise the literal joined target path
(absolute only when the store root is); the entry is guaranteed present upon
return in both cases. -/
theorem c6_put_return_amended (canon : FsPath → FsPath) (fs : FS)
    (sp md5_dir : FsPath) (d : List Nat) (fs' : FS) (r : String)
    (hd : d.length = 16)
    (hok : handle_md5_copy canon fs sp md5_dir (formatHexDigest d) =
      (fs', Except.ok r)) :
    pathExists fs'
      (md5_dir ++ [String.mk ((formatHexDigest d).data.take 2)] ++
        [formatHexDigest d]) = true ∧
    r = renderPath (canonOr canon
      (createDirAll fs (md5_dir ++ [String.mk ((formatHexDigest d).data.take 2)]))
      (md5_dir ++ [String.mk ((formatHexDigest d).data.take 2)] ++
        [formatHexDigest d])) := by
  simp only [handle_md5_copy, slice2_formatHexDigest hd] at hok
  split at hok
  case isTrue hex =>
    injection hok with hA hB
    subst hA
    injection hB with hB
    exact ⟨hex, hB.symm⟩
  case isFalse hex =>
    split at hok
    case h_1 heq =>
      exact Except.noConfusion (congrArg Prod.snd hok)
    case h_2 content heq =>
      injection hok with hA hB
      subst hA
      injection hB with hB
      exact ⟨by simp [pathExists, fileExists], hB.symm⟩

/-- Witness for C6 (amended) at the concrete first-put run under `rel`. -/
theorem c6_put_return_amended_witness :
    (List.replicate 16 (255 : Nat)).length = 16 ∧
    handle_md5_copy c6canon c6fsIn ["s"] ["rel"] hexFs =
      (c6fsOut, Except.ok ("rel/ff/" ++ hexFs)) ∧
    (pathExists c6fsOut
        (["rel"] ++ [String.mk (hexFs.data.take 2)] ++ [hexFs]) = true ∧
      ("rel/ff/" ++ hexFs) = renderPath (canonOr c6canon
        (createDirAll c6fsIn (["rel"] ++ [String.mk (hexFs.data.take 2)]))
        (["rel"] ++ [String.mk (hexFs.data.take 2)] ++ [hexFs]))) :=
  ⟨rfl, rfl,
   c6_put_return_amended c6canon c6fsIn ["s"] ["rel"]
     (List.replicate 16 255) c6fsOut ("rel/ff/" ++ hexFs) rfl rfl⟩

/-! ### Claim C9: the run writes only under the target base -/

theorem frame_refl (tb : FsPath) (fs0 : FS) : FrameOK tb fs0 fs0 :=
  ⟨fun _ h => h, fun _ _ => ⟨rfl, Iff.rfl⟩⟩

theorem frame_createDirAll {tb : FsPath} {fs0 fs : FS} {t : FsPath}
    (hanc : AncReady tb fs0) (ht : under tb t = true)
    (hf : FrameOK tb fs0 fs) : FrameOK tb fs0 (createDirAll fs t) := by
  refine ⟨fun q hq => List.mem_append.mpr (Or.inr (hf.1 q hq)), ?_⟩
  intro p hp
  refine ⟨(hf.2 p hp).1, ?_⟩
  constructor
  · intro hmem
    rcases List.mem_append.mp hmem with hin | hin
    · obtain ⟨hne, hu⟩ := mem_initsOf.mp hin
      rcases under_compare hu ht with hptb | htbp
      · have hnetb : p ≠ tb := by
          rintro rfl
          rw [under_refl] at hp
          exact Bool.noConfusion hp
        exact hanc p hne hptb hnetb
      · rw [htbp] at hp
        exact Bool.noConfusion hp
    · exact (hf.2 p hp).2.mp hin
  · intro hmem
    exact List.mem_append.mpr (Or.inr ((hf.2 p hp).2.mpr hmem))

theorem frame_consFile {tb : FsPath} {fs0 fs : FS} {k : FsPath}
    (hk : under tb k = true) (hf : FrameOK tb fs0 fs) (v : String) :
    FrameOK tb fs0 ⟨fs.dirs, (k, v) :: fs.files⟩ := by
  refine ⟨hf.1, ?_⟩
  intro p hp
  have hne : k ≠ p := by
    rintro rfl
    rw [hk] at hp
    exact Bool.noConfusion hp
  refine ⟨?_, (hf.2 p hp).2⟩
  rw [lookupFile_cons_ne hne]
  exact (hf.2 p hp).1

theorem frame_handle {tb : FsPath} {fs0 fs : FS} {canon : FsPath → FsPath}
    {sp md5_dir : FsPath} {hex : String}
    (hanc : AncReady tb fs0) (hm : under tb md5_dir = true)
    (hf : FrameOK tb fs0 fs) :
    FrameOK tb fs0 (handle_md5_copy canon fs sp md5_dir hex).1 := by
  rcases hs : sliceBytesTo hex.data 2 with _ | pre
  · simp only [handle_md5_copy, hs]
    exact hf
  · simp only [handle_md5_copy, hs]
    split
    · exact frame_createDirAll hanc (under_extend _ hm) hf
    · split
      · exact frame_createDirAll hanc (under_extend _ hm) hf
      · exact frame_consFile (under_extend _ (under_extend _ hm))
          (frame_createDirAll hanc (under_extend _ hm) hf) _

theorem frame_record {tb : FsPath} {fs0 fs : FS} {sp base tsdir : FsPath}
    {loc : String} (hanc : AncReady tb fs0)
    (hts : ∃ x rest, tsdir = tb ++ (x :: rest)) (hf : FrameOK tb fs0 fs) :
    FrameOK tb fs0 (create_timestamp_record fs sp base tsdir loc).1 := by
  rcases hstrip : stripRel base sp with _ | rel
  · simp only [create_timestamp_record, hstrip]
    exact hf
  · obtain ⟨x, rest, rfl⟩ := hts
    have hrec : under tb ((tb ++ (x :: rest)) ++ rel) = true := by
      rw [List.append_assoc]
      exact under_append _ _
    have hdrop : under tb (((tb ++ (x :: rest)) ++ rel).dropLast) = true := by
      rw [List.append_assoc, dropLast_append_ne_nil _ (by simp)]
      exact under_append _ _
    simp only [create_timestamp_record, hstrip]
    exact frame_consFile hrec (frame_createDirAll hanc hdrop hf) _

theorem frame_process_file {tb : FsPath} {fs0 fs : FS}
    {canon : FsPath → FsPath} {md5fn : String → List Nat}
    {p src md5_dir tsdir : FsPath}
    (hanc : AncReady tb fs0) (hm : under tb md5_dir = true)
    (hts : ∃ x rest, tsdir = tb ++ (x :: rest)) (hf : FrameOK tb fs0 fs) :
    FrameOK tb fs0 (process_file canon md5fn fs p src md5_dir tsdir).1 := by
  rcases hc : calculate_md5 md5fn fs p with e | hex
  · simp only [process_file, hc]
    exact hf
  · simp only [process_file, hc]
    have hf1 : FrameOK tb fs0 (handle_md5_copy canon fs p md5_dir hex).1 :=
      frame_handle hanc hm hf
    rcases hh : handle_md5_copy canon fs p md5_dir hex with ⟨fs1, r⟩
    rw [hh] at hf1
    cases r with
    | error e =>
      exact hf1
    | ok full =>
      have hf2 : FrameOK tb fs0
          (create_timestamp_record fs1 p src tsdir hex).1 :=
        frame_record hanc hts hf1
      rcases hr : create_timestamp_record fs1 p src tsdir hex with ⟨fs2, r2⟩
      rw [hr] at hf2
      cases r2 with
      | error e2 => simp only [hr]; exact hf2
      | ok u => simp only [hr]; exact hf2

theorem frame_foldl {tb : FsPath} {fs0 : FS} {canon : FsPath → FsPath}
    {md5fn : String → List Nat} {src md5_dir tsdir : FsPath}
    (hanc : AncReady tb fs0) (hm : under tb md5_dir = true)
    (hts : ∃ x rest, tsdir = tb ++ (x :: rest)) (xs : List FsPath) :
    ∀ (fs : FS) (log : List String), FrameOK tb fs0 fs →
      FrameOK tb fs0 ((xs.foldl (fun acc p =>
        match process_file canon md5fn acc.1 p src md5_dir tsdir with
        | (fs', none) => (fs', acc.2)
        | (fs', some e) => (fs', acc.2 ++ [mkErrMsg p e])) (fs, log)).1) := by
  induction xs with
  | nil =>
    intro fs log hf
    exact hf
  | cons x xs ih =>
    intro fs log hf
    rw [List.foldl_cons]
    have hf' : FrameOK tb fs0
        (process_file canon md5fn fs x src md5_dir tsdir).1 :=
      frame_process_file hanc hm hts hf
    rcases hstep : process_file canon md5fn fs x src md5_dir tsdir with ⟨fs', e?⟩
    rw [hstep] at hf'
    cases e? with
    | none => exact ih fs' log hf'
    | some e => exact ih fs' (log ++ [mkErrMsg x e]) hf'

/-- Claim C9: a run never creates, modifies or deletes anything outside the
target base — at every path not under the target base, file content and
directory existence after the run equal those before it — provided the
target base's own ancestors already exist (so its creation adds nothing
outside it); as every store copy, pointer record and created directory lies
under the target base, a source tree disjoint from the target base is left
untouched. -/
theorem c9_writes_confined_to_target (canon : FsPath → FsPath)
    (md5fn : String → List Nat) (fs0 : FS) (src : FsPath) (tree : FsTree)
    (tb : FsPath) (ts : String) (exts : List String) (out : FS × List String)
    (p : FsPath) (hanc : AncReady tb fs0)
    (hout : process_files_with_extensions canon md5fn fs0 src tree tb ts exts =
      Except.ok out)
    (hp : under tb p = false) :
    lookupFile out.1 p = lookupFile fs0 p ∧ (p ∈ out.1.dirs ↔ p ∈ fs0.dirs) := by
  injection hout with hout
  subst hout
  have hsetup : FrameOK tb fs0
      (createDirAll (createDirAll fs0 (tb ++ ["files_by_md5"])) (tb ++ [ts])) :=
    frame_createDirAll hanc (under_append _ _)
      (frame_createDirAll hanc (under_append _ _) (frame_refl tb fs0))
  have hff : FrameOK tb fs0
      (((candidateFiles src tree exts).foldl (fun acc q =>
        match process_file canon md5fn acc.1 q src (tb ++ ["files_by_md5"])
            (tb ++ [ts]) with
        | (fs', none) => (fs', acc.2)
        | (fs', some e) => (fs', acc.2 ++ [mkErrMsg q e]))
        (createDirAll (createDirAll fs0 (tb ++ ["files_by_md5"])) (tb ++ [ts]),
          [])).1) :=
    frame_foldl hanc (under_append tb ["files_by_md5"]) ⟨ts, [], rfl⟩
      (candidateFiles src tree exts)
      (createDirAll (createDirAll fs0 (tb ++ ["files_by_md5"])) (tb ++ [ts]))
      [] hsetup
  exact hff.2 p hp

/-- Witness for C9: running the orchestrator against target base `tb` leaves
the (unreadable, hence failing) source file's path untouched: no file and no
directory appears at `a.txt`, which is not under `tb`. -/
theorem c9_writes_confined_to_target_witness :
    under ["tb"] ["a.txt"] = false ∧
    (lookupFile c9fsOut ["a.txt"] = lookupFile (⟨[], []⟩ : FS) ["a.txt"] ∧
      (["a.txt"] ∈ c9fsOut.dirs ↔ ["a.txt"] ∈ (⟨[], []⟩ : FS).dirs)) := by
  refine ⟨by decide, ?_⟩
  refine c9_writes_confined_to_target (fun p => p) c1md5fn ⟨[], []⟩ ["a.txt"]
    (FsTree.file "a.txt") ["tb"] "ts1" ["txt"]
    (c9fsOut, ["Error processing a.txt: Failed to read file"]) ["a.txt"]
    ?_ rfl (by decide)
  intro q h1 h2 h3
  cases q with
  | nil => exact absurd rfl h1
  | cons a as =>
    cases as with
    | nil =>
      simp only [under, Bool.and_eq_true, decide_eq_true_eq] at h2
      exact absurd (by rw [h2.1]) h3
    | cons b bs =>
      simp [under] at h2
